import Mathlib

/-!
Verification of the persistence and configuration-sync layer of rowboat
(`rowboat/models/guild.py`).  The URL validator, including the Python
`urlparse` netloc extraction and the greedy regex `GIST_RE`, is embedded
as executable functions on `List Char`; the ORM-backed guild, emoji and
ban operations are embedded as explicit state-passing functions over
list-modelled tables, with the external collaborators (HTTP client, YAML
parser, configuration schema, the remote platform client) supplied as
oracle parameters.
-/

set_option maxRecDepth 8000

deriving instance DecidableEq for Except

namespace Rowboat

/-- Characters that Python urlparse accepts inside a URL scheme
(letters, digits, plus, minus, dot). -/
def schemeChar (c : Char) : Bool :=
  c.isAlpha || c.isDigit || c == '+' || c == '-' || c == '.'

/-- Split a character list at the first occurrence of `c`, returning the
parts before and after it (models Python `str.find` + slicing). -/
def splitFirst (c : Char) : List Char → Option (List Char × List Char)
  | [] => none
  | x :: xs =>
    if x = c then some ([], xs)
    else (splitFirst c xs).map (fun p => (x :: p.1, p.2))

/-- Characters that do not terminate the network-location part of a URL
(Python `_splitnetloc` stops at a slash, question mark or hash). -/
def hostChar (c : Char) : Bool := !(c == '/' || c == '?' || c == '#')

/-- The bracket check `urlsplit` of Python 2 runs on every extracted
netloc: an opening square bracket without a closing one (or vice versa)
raises `ValueError` with the message `Invalid IPv6 URL`; the error is
modelled as `Except.error ()`. -/
def checkNetloc (netloc : List Char) : Except Unit (List Char) :=
  if ('[' ∈ netloc ∧ ']' ∉ netloc) ∨ (']' ∈ netloc ∧ '[' ∉ netloc) then
    Except.error ()
  else Except.ok netloc

/-- The `netloc` component produced by `urlparse.urlparse` of Python 2:
if the text before the first colon is a valid scheme (or the literal
`http`), it is stripped; the netloc is then the text between a leading
double slash and the first slash, question mark or hash, subject to the
Invalid-IPv6-URL bracket check (a raise is `Except.error ()`). -/
def netlocOf (url : List Char) : Except Unit (List Char) :=
  let url2 :=
    match splitFirst ':' url with
    | none => url
    | some (pre, post) =>
      if pre ≠ [] ∧ (pre = ("http".toList) ∨
          (pre.all schemeChar ∧ (post = [] ∨ ¬ post.all Char.isDigit)))
      then post else url
  match url2 with
  | '/' :: '/' :: rest => checkNetloc (rest.takeWhile hostChar)
  | _ => Except.ok []

/-- Matcher for the part of `GIST_RE` after its second capture:
greedy `.*` then a slash then the third capture `(.*)`.  A greedy `.*`
never crosses a newline; greediness means the slash consumed is the
rightmost eligible one.  Returns the third capture on success. -/
def tail3 : List Char → Option (List Char)
  | [] => none
  | x :: xs =>
    if x = '\n' then none
    else
      match tail3 xs with
      | some g => some g
      | none => if x = '/' then some (xs.takeWhile (fun c => c != '\n')) else none

/-- Matcher for the part of `GIST_RE` from its second capture on:
`(.*)/raw/.*/(.*)` with all quantifiers greedy.  The second capture is
maximised first, so the literal `/raw/` is matched at the rightmost
position that lets the rest of the pattern succeed.  Returns the second
and third captures. -/
def tail2 : List Char → Option (List Char × List Char)
  | [] => none
  | x :: xs =>
    if x = '\n' then none
    else
      match tail2 xs with
      | some p => some (x :: p.1, p.2)
      | none =>
        if x = '/' ∧ xs.take 4 = ['r', 'a', 'w', '/'] then
          (tail3 (xs.drop 4)).map (fun g => ([], g))
        else none

/-- Matcher for `GIST_RE` from its first capture on:
`(.*)/(.*)/raw/.*/(.*)` with all quantifiers greedy; the first capture
is maximised before the second.  Returns the three captures. -/
def tail1 : List Char → Option (List Char × List Char × List Char)
  | [] => none
  | x :: xs =>
    if x = '\n' then none
    else
      match tail1 xs with
      | some p => some (x :: p.1, p.2)
      | none =>
        if x = '/' then (tail2 xs).map (fun p => ([], p.1, p.2)) else none

/-- Python `GIST_RE.match(url)` where
`GIST_RE = re.compile of the pattern `https://gist.githubusercontent.com/(.*)/(.*)/raw/.*/(.*)``:
the literal prefix (whose two unescaped dots match any non-newline
character) followed by the three greedy captures.  `re.match` anchors at
the start only. -/
def gistMatch (s : List Char) : Option (List Char × List Char × List Char) :=
  if s.take 12 = ("https://gist".toList) then
    match s.drop 12 with
    | c1 :: s1 =>
      if c1 ≠ '\n' ∧ s1.take 17 = ("githubusercontent".toList) then
        match s1.drop 17 with
        | c2 :: s2 =>
          if c2 ≠ '\n' ∧ s2.take 4 = ("com/".toList) then tail1 (s2.drop 4)
          else none
        | [] => none
      else none
    | [] => none
  else none

/-- Python `GIST_FMT.format(*match.groups())`: the gist URL rebuilt from
the three captured groups. -/
def GIST_FMT (a b c : List Char) : List Char :=
  ("https://gist.githubusercontent.com/".toList) ++ a ++ '/' :: b ++
    ("/raw/".toList) ++ c

/-- The `ALLOWED_DOMAINS` set from `guild.py`. -/
def ALLOWED_DOMAINS : List (List Char) :=
  [("github.com".toList), ("githubusercontent.com".toList),
   ("pastebin.com".toList), ("hastebin.com".toList),
   ("gitlab.com".toList), ("bitbucket.org".toList)]

/-- `validate_config_url` from `guild.py`, on character lists.
`Except.ok none` models the Python `None` return (the invalid signal)
and `Except.error ()` the `ValueError` escaping from `urlparse`: the
parsed netloc must end with an allowed domain; for netlocs starting
with `gist`, a successful `GIST_RE` match rewrites the URL through
`GIST_FMT`; otherwise the URL passes through unchanged. -/
def validateL (url : List Char) : Except Unit (Option (List Char)) :=
  match netlocOf url with
  | Except.error u => Except.error u
  | Except.ok netloc =>
    if ALLOWED_DOMAINS.any (fun d => d.isSuffixOf netloc) then
      if ("gist".toList).isPrefixOf netloc then
        match gistMatch url with
        | some g => Except.ok (some (GIST_FMT g.1 g.2.1 g.2.2))
        | none => Except.ok (some url)
      else Except.ok (some url)
    else Except.ok none

/-- `validate_config_url` on strings. -/
def validate_config_url (url : String) : Except Unit (Option String) :=
  (validateL url.toList).map (Option.map List.asString)

/-- An accepted validation outcome: a URL was returned (neither the
invalid signal nor a raised `ValueError`). -/
def isAccepted : Except Unit (Option (List Char)) → Bool
  | Except.ok (some _) => true
  | _ => false

/-- URL of the shape scheme `https`, host `h`, then a slash and the rest
of the path `p`. -/
def urlOfHostPath (h p : List Char) : List Char :=
  ("https://".toList) ++ h ++ '/' :: p

/-- Gist URL of the documented shape
`https://gist.githubusercontent.com/<user>/<id>/raw/<revision>/<filename>`. -/
def gistUrl (u g r f : List Char) : List Char :=
  ("https://gist.githubusercontent.com/".toList) ++ u ++ '/' :: g ++
    ("/raw/".toList) ++ r ++ '/' :: f

/-- A host free of the characters that would end the netloc early and of
the square brackets that trigger the Invalid-IPv6-URL check. -/
def cleanHost (h : List Char) : Prop :=
  ∀ c ∈ h, c ≠ '/' ∧ c ≠ '?' ∧ c ≠ '#' ∧ c ≠ '[' ∧ c ≠ ']'

instance cleanHostDecidable (h : List Char) : Decidable (cleanHost h) :=
  inferInstanceAs (Decidable (∀ c ∈ h, c ≠ '/' ∧ c ≠ '?' ∧ c ≠ '#' ∧ c ≠ '[' ∧ c ≠ ']'))

/-! ### Lemmas about the greedy matcher -/

lemma takeWhile_no_newline {l : List Char} (h : '\n' ∉ l) :
    l.takeWhile (fun c => c != '\n') = l := by
  induction l with
  | nil => rfl
  | cons x xs ih =>
    have hx : x ≠ '\n' := fun e => h (e ▸ List.mem_cons_self x xs)
    have hxs : '\n' ∉ xs := fun m => h (List.mem_cons_of_mem x m)
    simp [List.takeWhile_cons, hx, ih hxs]

lemma tail3_none {l : List Char} (h : '/' ∉ l) : tail3 l = none := by
  induction l with
  | nil => rfl
  | cons x xs ih =>
    have hx : x ≠ '/' := fun e => h (e ▸ List.mem_cons_self x xs)
    have hxs : '/' ∉ xs := fun m => h (List.mem_cons_of_mem x m)
    by_cases hn : x = '\n'
    · simp [tail3, hn]
    · simp [tail3, hn, ih hxs, hx]

lemma tail3_seg {r f : List Char} (hr : '\n' ∉ r) (hf1 : '/' ∉ f) (hf2 : '\n' ∉ f) :
    tail3 (r ++ '/' :: f) = some f := by
  induction r with
  | nil =>
    have h1 : tail3 f = none := tail3_none hf1
    simp [tail3, h1, takeWhile_no_newline hf2]
  | cons x xs ih =>
    have hx : x ≠ '\n' := fun e => hr (e ▸ List.mem_cons_self x xs)
    have hxs : '\n' ∉ xs := fun m => hr (List.mem_cons_of_mem x m)
    simp [tail3, hx, ih hxs]

lemma tail2_cons (x : Char) (xs : List Char) :
    tail2 (x :: xs) =
      if x = '\n' then none
      else
        match tail2 xs with
        | some p => some (x :: p.1, p.2)
        | none =>
          if x = '/' ∧ xs.take 4 = ['r', 'a', 'w', '/'] then
            (tail3 (xs.drop 4)).map (fun g => ([], g))
          else none := rfl

lemma tail1_cons (x : Char) (xs : List Char) :
    tail1 (x :: xs) =
      if x = '\n' then none
      else
        match tail1 xs with
        | some p => some (x :: p.1, p.2)
        | none =>
          if x = '/' then (tail2 xs).map (fun p => ([], p.1, p.2)) else none := rfl

lemma take4_ne_raw {f : List Char} (hf : '/' ∉ f) :
    f.take 4 ≠ ['r', 'a', 'w', '/'] := by
  intro h
  have hm : '/' ∈ f.take 4 := by rw [h]; simp
  exact hf (List.take_subset 4 f hm)

lemma tail2_none {l : List Char} (h : '/' ∉ l) : tail2 l = none := by
  induction l with
  | nil => rfl
  | cons x xs ih =>
    have hx : x ≠ '/' := fun e => h (e ▸ List.mem_cons_self x xs)
    have hxs : '/' ∉ xs := fun m => h (List.mem_cons_of_mem x m)
    by_cases hn : x = '\n'
    · simp [tail2, hn]
    · simp [tail2, hn, ih hxs, hx]

lemma tail2_seg {r f : List Char} (hr : '/' ∉ r) (hf : '/' ∉ f) :
    tail2 (r ++ '/' :: f) = none := by
  induction r with
  | nil =>
    have h1 : tail2 f = none := tail2_none hf
    simp [tail2, h1, take4_ne_raw hf]
  | cons x xs ih =>
    have hx : x ≠ '/' := fun e => hr (e ▸ List.mem_cons_self x xs)
    have hxs : '/' ∉ xs := fun m => hr (List.mem_cons_of_mem x m)
    by_cases hn : x = '\n'
    · simp [tail2, hn]
    · simp [tail2, hn, ih hxs, hx]

lemma take4_seg {r f : List Char} (hr : '/' ∉ r) (hne : r ≠ ['r', 'a', 'w']) :
    (r ++ '/' :: f).take 4 ≠ ['r', 'a', 'w', '/'] := by
  match r with
  | [] => simp
  | [c1] => simp
  | [c1, c2] => simp
  | [c1, c2, c3] =>
    intro h
    simp only [List.cons_append, List.nil_append, List.take_succ_cons,
      List.take, List.cons.injEq] at h
    exact hne (by simp [h.1, h.2.1, h.2.2.1])
  | c1 :: c2 :: c3 :: c4 :: rest =>
    intro h
    simp only [List.cons_append, List.take_succ_cons, List.cons.injEq] at h
    exact hr (by
      have : c4 = '/' := h.2.2.2.1
      rw [← this]
      exact List.mem_cons_of_mem _ (List.mem_cons_of_mem _
        (List.mem_cons_of_mem _ (List.mem_cons_self c4 rest))))

lemma tail2_rawseg {r f : List Char} (hr : '/' ∉ r) (hf : '/' ∉ f) :
    tail2 ('r' :: 'a' :: 'w' :: '/' :: (r ++ '/' :: f)) = none := by
  have h0 : tail2 (r ++ '/' :: f) = none := tail2_seg hr hf
  have h1 : tail2 ('/' :: (r ++ '/' :: f)) = none := by
    rw [tail2_cons, h0]
    by_cases hraw : r = ['r', 'a', 'w']
    · subst hraw
      simp [tail3_none hf]
    · simp [take4_seg hr hraw]
  have h2 : tail2 ('w' :: '/' :: (r ++ '/' :: f)) = none := by
    rw [tail2_cons, h1]; simp
  have h3 : tail2 ('a' :: 'w' :: '/' :: (r ++ '/' :: f)) = none := by
    rw [tail2_cons, h2]; simp
  rw [tail2_cons, h3]; simp

lemma tail2_main {g r f : List Char} (hg : '\n' ∉ g) (hr1 : '/' ∉ r) (hr2 : '\n' ∉ r)
    (hf1 : '/' ∉ f) (hf2 : '\n' ∉ f) :
    tail2 (g ++ '/' :: 'r' :: 'a' :: 'w' :: '/' :: (r ++ '/' :: f)) = some (g, f) := by
  induction g with
  | nil =>
    have h0 : tail2 ('r' :: 'a' :: 'w' :: '/' :: (r ++ '/' :: f)) = none :=
      tail2_rawseg hr1 hf1
    have h3 : tail3 (r ++ '/' :: f) = some f := tail3_seg hr2 hf1 hf2
    rw [List.nil_append, tail2_cons, h0]
    simp [h3]
  | cons x xs ih =>
    have hx : x ≠ '\n' := fun e => hg (e ▸ List.mem_cons_self x xs)
    have hxs : '\n' ∉ xs := fun m => hg (List.mem_cons_of_mem x m)
    rw [List.cons_append, tail2_cons, ih hxs]
    simp [hx]

lemma tail1_none {l : List Char} (h : '/' ∉ l) : tail1 l = none := by
  induction l with
  | nil => rfl
  | cons x xs ih =>
    have hx : x ≠ '/' := fun e => h (e ▸ List.mem_cons_self x xs)
    have hxs : '/' ∉ xs := fun m => h (List.mem_cons_of_mem x m)
    by_cases hn : x = '\n'
    · simp [tail1, hn]
    · simp [tail1, hn, ih hxs, hx]

lemma tail1_seg {r f : List Char} (hr : '/' ∉ r) (hf : '/' ∉ f) :
    tail1 (r ++ '/' :: f) = none := by
  induction r with
  | nil =>
    have h1 : tail1 f = none := tail1_none hf
    have h2 : tail2 f = none := tail2_none hf
    simp [tail1, h1, h2]
  | cons x xs ih =>
    have hx : x ≠ '/' := fun e => hr (e ▸ List.mem_cons_self x xs)
    have hxs : '/' ∉ xs := fun m => hr (List.mem_cons_of_mem x m)
    by_cases hn : x = '\n'
    · simp [tail1, hn]
    · simp [tail1, hn, ih hxs, hx]

lemma tail1_rawseg {r f : List Char} (hr : '/' ∉ r) (hf : '/' ∉ f) :
    tail1 ('r' :: 'a' :: 'w' :: '/' :: (r ++ '/' :: f)) = none := by
  have h1 : tail1 ('/' :: (r ++ '/' :: f)) = none := by
    rw [tail1_cons, tail1_seg hr hf, tail2_seg hr hf]
    simp
  have h2 : tail1 ('w' :: '/' :: (r ++ '/' :: f)) = none := by
    rw [tail1_cons, h1]; simp
  have h3 : tail1 ('a' :: 'w' :: '/' :: (r ++ '/' :: f)) = none := by
    rw [tail1_cons, h2]; simp
  rw [tail1_cons, h3]; simp

lemma tail1_R {g r f : List Char} (hg : '/' ∉ g) (hr : '/' ∉ r) (hf : '/' ∉ f) :
    tail1 (g ++ '/' :: 'r' :: 'a' :: 'w' :: '/' :: (r ++ '/' :: f)) = none := by
  induction g with
  | nil =>
    rw [List.nil_append, tail1_cons, tail1_rawseg hr hf, tail2_rawseg hr hf]
    simp
  | cons x xs ih =>
    have hx : x ≠ '/' := fun e => hg (e ▸ List.mem_cons_self x xs)
    have hxs : '/' ∉ xs := fun m => hg (List.mem_cons_of_mem x m)
    rw [List.cons_append, tail1_cons, ih hxs]
    simp [hx]

lemma tail1_main {u g r f : List Char} (hu : '\n' ∉ u)
    (hg1 : '/' ∉ g) (hg2 : '\n' ∉ g) (hr1 : '/' ∉ r) (hr2 : '\n' ∉ r)
    (hf1 : '/' ∉ f) (hf2 : '\n' ∉ f) :
    tail1 (u ++ '/' :: (g ++ '/' :: 'r' :: 'a' :: 'w' :: '/' :: (r ++ '/' :: f))) =
      some (u, g, f) := by
  induction u with
  | nil =>
    have h0 : tail1 (g ++ '/' :: 'r' :: 'a' :: 'w' :: '/' :: (r ++ '/' :: f)) = none :=
      tail1_R hg1 hr1 hf1
    have h2 : tail2 (g ++ '/' :: 'r' :: 'a' :: 'w' :: '/' :: (r ++ '/' :: f)) = some (g, f) :=
      tail2_main hg2 hr1 hr2 hf1 hf2
    rw [List.nil_append, tail1_cons, h0, h2]
    simp
  | cons x xs ih =>
    have hx : x ≠ '\n' := fun e => hu (e ▸ List.mem_cons_self x xs)
    have hxs : '\n' ∉ xs := fun m => hu (List.mem_cons_of_mem x m)
    rw [List.cons_append, tail1_cons, ih hxs]
    simp [hx]

/-! ### Netloc extraction and the validator on structured URLs -/

lemma netloc_https (X : List Char) :
    netlocOf (("https://".toList) ++ X) = checkNetloc (X.takeWhile hostChar) := rfl

lemma netloc_gist_lit (X : List Char) :
    netlocOf (("https://gist.githubusercontent.com/".toList) ++ X) =
      Except.ok ("gist.githubusercontent.com".toList) := rfl

lemma gistMatch_lit (X : List Char) :
    gistMatch (("https://gist.githubusercontent.com/".toList) ++ X) = tail1 X := rfl

lemma checkNetloc_ok {h : List Char} (h1 : '[' ∉ h) (h2 : ']' ∉ h) :
    checkNetloc h = Except.ok h := by
  unfold checkNetloc
  rw [if_neg]
  rintro (⟨ha, -⟩ | ⟨ha, -⟩)
  · exact h1 ha
  · exact h2 ha

lemma takeWhile_host {h : List Char} (p : List Char)
    (hc : ∀ c ∈ h, c ≠ '/' ∧ c ≠ '?' ∧ c ≠ '#') :
    (h ++ '/' :: p).takeWhile hostChar = h := by
  induction h with
  | nil => simp [List.takeWhile_cons, hostChar]
  | cons x xs ih =>
    obtain ⟨h1, h2, h3⟩ := hc x (List.mem_cons_self x xs)
    have hx : hostChar x = true := by simp [hostChar, h1, h2, h3]
    have hcs : ∀ c ∈ xs, c ≠ '/' ∧ c ≠ '?' ∧ c ≠ '#' :=
      fun c m => hc c (List.mem_cons_of_mem x m)
    simp [List.takeWhile_cons, hx, ih hcs]

lemma netloc_urlOfHostPath {h : List Char} (p : List Char) (hc : cleanHost h) :
    netlocOf (urlOfHostPath h p) = Except.ok h := by
  have e : urlOfHostPath h p = ("https://".toList) ++ (h ++ '/' :: p) := by
    simp [urlOfHostPath]
  rw [e, netloc_https,
    takeWhile_host p (fun c m => ⟨(hc c m).1, (hc c m).2.1, (hc c m).2.2.1⟩)]
  exact checkNetloc_ok (fun m => (hc _ m).2.2.2.1 rfl) (fun m => (hc _ m).2.2.2.2 rfl)

lemma validateL_unfold_ok {url netloc : List Char} (hn : netlocOf url = Except.ok netloc) :
    validateL url =
      (if ALLOWED_DOMAINS.any (fun d => d.isSuffixOf netloc) then
        if ("gist".toList).isPrefixOf netloc then
          match gistMatch url with
          | some g => Except.ok (some (GIST_FMT g.1 g.2.1 g.2.2))
          | none => Except.ok (some url)
        else Except.ok (some url)
      else Except.ok none) := by
  unfold validateL
  rw [hn]

lemma validateL_unfold_err {url : List Char} (hn : netlocOf url = Except.error ()) :
    validateL url = Except.error () := by
  unfold validateL
  rw [hn]

/-- A host whose netloc carries an opening bracket without a closing one
makes `urlparse` raise, and `validate_config_url` propagates the raise. -/
lemma validateL_bracket {h : List Char} (p : List Char)
    (hns : ∀ c ∈ h, c ≠ '/' ∧ c ≠ '?' ∧ c ≠ '#')
    (hb1 : '[' ∈ h) (hb2 : ']' ∉ h) :
    validateL (urlOfHostPath h p) = Except.error () := by
  apply validateL_unfold_err
  have e : urlOfHostPath h p = ("https://".toList) ++ (h ++ '/' :: p) := by
    simp [urlOfHostPath]
  rw [e, netloc_https, takeWhile_host p hns]
  unfold checkNetloc
  rw [if_pos (Or.inl ⟨hb1, hb2⟩)]

/-- The raise path evaluated on a concrete bracketed lookalike host. -/
lemma validateL_bracket_example :
    validateL (("https://a[b.github.com/x").toList) = Except.error () := by decide

lemma validateL_accept {h : List Char} (p : List Char) (hc : cleanHost h)
    (hd : ALLOWED_DOMAINS.any (fun d => d.isSuffixOf h) = true) :
    ∃ r, validateL (urlOfHostPath h p) = Except.ok (some r) ∧ r ≠ [] := by
  have hurl : urlOfHostPath h p ≠ [] := by simp [urlOfHostPath]
  rw [validateL_unfold_ok (netloc_urlOfHostPath p hc), hd, if_pos rfl]
  by_cases hg : ("gist".toList).isPrefixOf h = true
  · rw [if_pos hg]
    cases hm : gistMatch (urlOfHostPath h p) with
    | some g =>
      refine ⟨GIST_FMT g.1 g.2.1 g.2.2, rfl, ?_⟩
      simp [GIST_FMT]
    | none =>
      exact ⟨urlOfHostPath h p, rfl, hurl⟩
  · rw [if_neg hg]
    exact ⟨urlOfHostPath h p, rfl, hurl⟩

lemma validateL_reject {h : List Char} (p : List Char) (hc : cleanHost h)
    (hd : ALLOWED_DOMAINS.any (fun d => d.isSuffixOf h) = false) :
    validateL (urlOfHostPath h p) = Except.ok none := by
  rw [validateL_unfold_ok (netloc_urlOfHostPath p hc), hd]
  simp only [Bool.false_eq_true, if_false]

lemma validateL_gistUrl {u g r f : List Char} (hu1 : '/' ∉ u) (hu2 : '\n' ∉ u)
    (hg1 : '/' ∉ g) (hg2 : '\n' ∉ g) (hr1 : '/' ∉ r) (hr2 : '\n' ∉ r)
    (hf1 : '/' ∉ f) (hf2 : '\n' ∉ f) :
    validateL (gistUrl u g r f) = Except.ok (some (GIST_FMT u g f)) := by
  have hshape : gistUrl u g r f =
      ("https://gist.githubusercontent.com/".toList) ++
        (u ++ '/' :: (g ++ '/' :: 'r' :: 'a' :: 'w' :: '/' :: (r ++ '/' :: f))) := by
    have hraw : ("/raw/".toList) = ['/', 'r', 'a', 'w', '/'] := rfl
    simp [gistUrl, hraw]
  rw [hshape]
  have hnet := netloc_gist_lit
    (u ++ '/' :: (g ++ '/' :: 'r' :: 'a' :: 'w' :: '/' :: (r ++ '/' :: f)))
  have hmatch : gistMatch (("https://gist.githubusercontent.com/".toList) ++
      (u ++ '/' :: (g ++ '/' :: 'r' :: 'a' :: 'w' :: '/' :: (r ++ '/' :: f)))) =
      some (u, g, f) := by
    rw [gistMatch_lit]
    exact tail1_main hu2 hg1 hg2 hr1 hr2 hf1 hf2
  have hcond : (ALLOWED_DOMAINS.any
      fun d => d.isSuffixOf (("gist.githubusercontent.com").toList)) = true := by decide
  have hpre : (("gist".toList).isPrefixOf
      (("gist.githubusercontent.com").toList)) = true := by decide
  rw [validateL_unfold_ok hnet, hcond, if_pos rfl, if_pos hpre, hmatch]

lemma tail2_rawf {f : List Char} (hf : '/' ∉ f) :
    tail2 ('r' :: 'a' :: 'w' :: '/' :: f) = none := by
  have h1 : tail2 ('/' :: f) = none := by
    rw [tail2_cons, tail2_none hf]
    simp [take4_ne_raw hf]
  have h2 : tail2 ('w' :: '/' :: f) = none := by rw [tail2_cons, h1]; simp
  have h3 : tail2 ('a' :: 'w' :: '/' :: f) = none := by rw [tail2_cons, h2]; simp
  rw [tail2_cons, h3]; simp

lemma tail2_gnorm {g f : List Char} (hg : '/' ∉ g) (hf : '/' ∉ f) :
    tail2 (g ++ '/' :: 'r' :: 'a' :: 'w' :: '/' :: f) = none := by
  induction g with
  | nil =>
    rw [List.nil_append, tail2_cons, tail2_rawf hf]
    simp [tail3_none hf]
  | cons x xs ih =>
    have hx : x ≠ '/' := fun e => hg (e ▸ List.mem_cons_self x xs)
    have hxs : '/' ∉ xs := fun m => hg (List.mem_cons_of_mem x m)
    by_cases hn : x = '\n'
    · rw [List.cons_append, tail2_cons]; simp [hn]
    · rw [List.cons_append, tail2_cons, ih hxs]; simp [hn, hx]

lemma tail1_rawf {f : List Char} (hf : '/' ∉ f) :
    tail1 ('r' :: 'a' :: 'w' :: '/' :: f) = none := by
  have h1 : tail1 ('/' :: f) = none := by
    rw [tail1_cons, tail1_none hf, tail2_none hf]; simp
  have h2 : tail1 ('w' :: '/' :: f) = none := by rw [tail1_cons, h1]; simp
  have h3 : tail1 ('a' :: 'w' :: '/' :: f) = none := by rw [tail1_cons, h2]; simp
  rw [tail1_cons, h3]; simp

lemma tail1_gnorm {g f : List Char} (hg : '/' ∉ g) (hf : '/' ∉ f) :
    tail1 (g ++ '/' :: 'r' :: 'a' :: 'w' :: '/' :: f) = none := by
  induction g with
  | nil =>
    rw [List.nil_append, tail1_cons, tail1_rawf hf, tail2_rawf hf]
    simp
  | cons x xs ih =>
    have hx : x ≠ '/' := fun e => hg (e ▸ List.mem_cons_self x xs)
    have hxs : '/' ∉ xs := fun m => hg (List.mem_cons_of_mem x m)
    by_cases hn : x = '\n'
    · rw [List.cons_append, tail1_cons]; simp [hn]
    · rw [List.cons_append, tail1_cons, ih hxs]; simp [hn, hx]

lemma tail1_norm {u g f : List Char} (hu : '/' ∉ u) (hg : '/' ∉ g) (hf : '/' ∉ f) :
    tail1 (u ++ '/' :: (g ++ '/' :: 'r' :: 'a' :: 'w' :: '/' :: f)) = none := by
  induction u with
  | nil =>
    rw [List.nil_append, tail1_cons, tail1_gnorm hg hf, tail2_gnorm hg hf]
    simp
  | cons x xs ih =>
    have hx : x ≠ '/' := fun e => hu (e ▸ List.mem_cons_self x xs)
    have hxs : '/' ∉ xs := fun m => hu (List.mem_cons_of_mem x m)
    by_cases hn : x = '\n'
    · rw [List.cons_append, tail1_cons]; simp [hn]
    · rw [List.cons_append, tail1_cons, ih hxs]; simp [hn, hx]

/-- The normalised gist form no longer matches `GIST_RE` (its tail has no
slash after the last `/raw/`), so a second validation passes it through. -/
lemma validateL_norm {u g f : List Char} (hu : '/' ∉ u) (hg : '/' ∉ g) (hf : '/' ∉ f) :
    validateL (GIST_FMT u g f) = Except.ok (some (GIST_FMT u g f)) := by
  have hshape : GIST_FMT u g f =
      ("https://gist.githubusercontent.com/".toList) ++
        (u ++ '/' :: (g ++ '/' :: 'r' :: 'a' :: 'w' :: '/' :: f)) := by
    have hraw : ("/raw/".toList) = ['/', 'r', 'a', 'w', '/'] := rfl
    simp [GIST_FMT, hraw]
  have hnet := netloc_gist_lit (u ++ '/' :: (g ++ '/' :: 'r' :: 'a' :: 'w' :: '/' :: f))
  have hmatch : gistMatch (("https://gist.githubusercontent.com/".toList) ++
      (u ++ '/' :: (g ++ '/' :: 'r' :: 'a' :: 'w' :: '/' :: f))) = none := by
    rw [gistMatch_lit]
    exact tail1_norm hu hg hf
  have hcond : (ALLOWED_DOMAINS.any
      fun d => d.isSuffixOf (("gist.githubusercontent.com").toList)) = true := by decide
  have hpre : (("gist".toList).isPrefixOf
      (("gist.githubusercontent.com").toList)) = true := by decide
  conv_lhs => rw [hshape]
  conv_rhs => rw [hshape]
  rw [validateL_unfold_ok hnet, hcond, if_pos rfl, if_pos hpre, hmatch]

/-! ### Claim theorems about the URL validator -/

/-- Claim C1, counterexample: validating the example given in the spec,
`https://gist.githubusercontent.com/alice/abc123/raw/deadbeef/file.yml`
does not yield `https://gist.githubusercontent.com/alice/abc123/raw/deadbeef`
(the code produces `.../raw/file.yml` instead: the third capture of
`GIST_RE` is the filename, not the revision). -/
theorem c1_counterexample :
    validateL (("https://gist.githubusercontent.com/alice/abc123/raw/deadbeef/file.yml").toList) ≠
      Except.ok (some (("https://gist.githubusercontent.com/alice/abc123/raw/deadbeef").toList)) := by
  decide

/-- Claim C1, amended: for every gist URL of the shape
`https://gist.githubusercontent.com/<user>/<gist-id>/raw/<revision>/<filename>`
(segments free of slashes and newlines), `validate_config_url` rewrites it to
`https://gist.githubusercontent.com/<user>/<gist-id>/raw/<filename>`,
dropping the revision and keeping the filename. -/
theorem c1_theorem (u g r f : List Char)
    (hu1 : '/' ∉ u) (hu2 : '\n' ∉ u) (hg1 : '/' ∉ g) (hg2 : '\n' ∉ g)
    (hr1 : '/' ∉ r) (hr2 : '\n' ∉ r) (hf1 : '/' ∉ f) (hf2 : '\n' ∉ f) :
    validateL (gistUrl u g r f) =
      Except.ok (some (("https://gist.githubusercontent.com/".toList) ++ u ++ '/' :: g ++
        ("/raw/".toList) ++ f)) :=
  validateL_gistUrl hu1 hu2 hg1 hg2 hr1 hr2 hf1 hf2

/-- Claim C1, witness: the amended theorem evaluated on the example given in the spec. -/
theorem c1_witness :
    validateL (gistUrl (("alice").toList) (("abc123").toList)
        (("deadbeef").toList) (("file.yml").toList)) =
      Except.ok (some (("https://gist.githubusercontent.com/alice/abc123/raw/file.yml").toList)) :=
  (c1_theorem _ _ _ _ (by decide) (by decide) (by decide) (by decide)
    (by decide) (by decide) (by decide) (by decide)).trans (by decide)

/-- Claim C2, counterexample: the host `notgithub.com` is neither an
allow-listed domain nor a dot-suffix subdomain of one, yet
`validate_config_url` accepts it and returns the URL (the code does a
plain suffix match). -/
theorem c2_counterexample :
    validateL (("https://notgithub.com/x").toList) =
      Except.ok (some (("https://notgithub.com/x").toList)) := by decide

/-- Claim C2, amended: a URL whose bracket-free host is an allow-listed
domain or a dot-suffix subdomain of one is accepted with a non-empty
result, and a URL whose bracket-free host does not end (as a plain string
suffix) with any allow-listed domain is rejected with the invalid signal
(a host with mismatched square brackets instead raises the urlparse
Invalid-IPv6-URL ValueError). -/
theorem c2_theorem (h p : List Char) (hc : cleanHost h) :
    ((∃ d ∈ ALLOWED_DOMAINS, h = d ∨ ∃ x, h = x ++ '.' :: d) →
      ∃ r, validateL (urlOfHostPath h p) = Except.ok (some r) ∧ r ≠ []) ∧
    ((∀ d ∈ ALLOWED_DOMAINS, d.isSuffixOf h = false) →
      validateL (urlOfHostPath h p) = Except.ok none) := by
  constructor
  · rintro ⟨d, hd, hcase⟩
    apply validateL_accept p hc
    rw [List.any_eq_true]
    refine ⟨d, hd, ?_⟩
    rw [List.isSuffixOf_iff_suffix]
    rcases hcase with heq | ⟨x, heq⟩
    · rw [heq]
    · rw [heq]
      exact ⟨x ++ ['.'], by simp⟩
  · intro hall
    apply validateL_reject p hc
    rw [List.any_eq_false]
    intro d hd
    simp [hall d hd]

/-- Claim C2, witness: the subdomain `gist.github.com` is accepted and the
unrelated host `bad.example.org` is rejected. -/
theorem c2_witness :
    (∃ r, validateL (urlOfHostPath (("gist.github.com").toList) (("x").toList)) =
        Except.ok (some r) ∧ r ≠ []) ∧
    validateL (urlOfHostPath (("bad.example.org").toList) (("x").toList)) =
      Except.ok none := by
  constructor
  · exact (c2_theorem (("gist.github.com").toList) (("x").toList) (by decide)).1
      ⟨("github.com").toList, by decide, Or.inr ⟨("gist").toList, by decide⟩⟩
  · exact (c2_theorem (("bad.example.org").toList) (("x").toList) (by decide)).2 (by decide)

/-- Claim C3, counterexample: `evilgithub.com` does end with `github.com`
as a plain string suffix, so contrary to the example in the claim it is
accepted (the URL is returned), not rejected. -/
theorem c3_counterexample :
    validateL (("https://evilgithub.com/x").toList) =
      Except.ok (some (("https://evilgithub.com/x").toList)) := by decide

/-- Claim C3, amended: for bracket-free hosts, `validate_config_url`
raises nothing and accepts the URL exactly when the parsed host ends with
one of the six allow-listed domains as a plain, unanchored string suffix
(so both `notgithub.com` and `evilgithub.com` are accepted, and any host
matching no allowed suffix is rejected); a host with mismatched square
brackets instead raises the urlparse Invalid-IPv6-URL ValueError. -/
theorem c3_theorem (h p : List Char) (hc : cleanHost h) :
    (validateL (urlOfHostPath h p)).isOk = true ∧
    isAccepted (validateL (urlOfHostPath h p)) =
      ALLOWED_DOMAINS.any (fun d => d.isSuffixOf h) := by
  cases hd : ALLOWED_DOMAINS.any (fun d => d.isSuffixOf h) with
  | true =>
    obtain ⟨r, hr, _⟩ := validateL_accept p hc hd
    simp [hr, isAccepted, Except.isOk, Except.toBool]
  | false => simp [validateL_reject p hc hd, isAccepted, Except.isOk, Except.toBool]

/-- Claim C3, witness: the amended theorem evaluated on `notgithub.com`
(accepted), `evilgithub.com` (accepted) and `evil.com` (rejected). -/
theorem c3_witness :
    isAccepted (validateL (urlOfHostPath (("notgithub.com").toList) (("x").toList))) = true ∧
    isAccepted (validateL (urlOfHostPath (("evilgithub.com").toList) (("x").toList))) = true ∧
    isAccepted (validateL (urlOfHostPath (("evil.com").toList) (("x").toList))) = false :=
  ⟨((c3_theorem _ _ (by decide)).2).trans (by decide),
   ((c3_theorem _ _ (by decide)).2).trans (by decide),
   ((c3_theorem _ _ (by decide)).2).trans (by decide)⟩

/-- Claim C9, counterexample: on the accepted gist URL
`https://gist.githubusercontent.com/a/b/raw/c/d/raw/e/f` the validator
produces `.../a/b/raw/c/d/raw/f`, and validating that output again rewrites
it further to `.../a/b/raw/f`: gist normalisation is not idempotent on its
own output in general. -/
theorem c9_counterexample :
    validateL (("https://gist.githubusercontent.com/a/b/raw/c/d/raw/e/f").toList) =
      Except.ok (some (("https://gist.githubusercontent.com/a/b/raw/c/d/raw/f").toList)) ∧
    validateL (("https://gist.githubusercontent.com/a/b/raw/c/d/raw/f").toList) ≠
      Except.ok (some (("https://gist.githubusercontent.com/a/b/raw/c/d/raw/f").toList)) := by
  decide

/-- Claim C9, amended: for gist URLs of the standard shape
`https://gist.githubusercontent.com/<user>/<gist-id>/raw/<revision>/<filename>`
with slash- and newline-free segments, the validator output is a fixed
point: the normalised form no longer matches the rewrite pattern, so
re-validating returns it unchanged. -/
theorem c9_theorem (u g r f : List Char)
    (hu1 : '/' ∉ u) (hu2 : '\n' ∉ u) (hg1 : '/' ∉ g) (hg2 : '\n' ∉ g)
    (hr1 : '/' ∉ r) (hr2 : '\n' ∉ r) (hf1 : '/' ∉ f) (hf2 : '\n' ∉ f) :
    validateL (gistUrl u g r f) = Except.ok (some (GIST_FMT u g f)) ∧
    validateL (GIST_FMT u g f) = Except.ok (some (GIST_FMT u g f)) :=
  ⟨validateL_gistUrl hu1 hu2 hg1 hg2 hr1 hr2 hf1 hf2, validateL_norm hu1 hg1 hf1⟩

/-- Claim C9, witness: the amended theorem evaluated on the example given in the spec. -/
theorem c9_witness :
    validateL (gistUrl (("alice").toList) (("abc123").toList)
        (("deadbeef").toList) (("file.yml").toList)) =
      Except.ok (some (GIST_FMT (("alice").toList) (("abc123").toList) (("file.yml").toList))) ∧
    validateL (GIST_FMT (("alice").toList) (("abc123").toList) (("file.yml").toList)) =
      Except.ok (some (GIST_FMT (("alice").toList) (("abc123").toList) (("file.yml").toList))) :=
  c9_theorem _ _ _ _ (by decide) (by decide) (by decide) (by decide)
    (by decide) (by decide) (by decide) (by decide)

/-! ### Data model for the ORM-backed operations

The database tables are modelled as in-memory lists of rows, with the
peewee primitives (`create`, `update().where().execute()`, `save`,
`get_or_create`) embedded as explicit list transformations keyed the way
the source keys them.  External collaborators (the HTTP client + YAML
parser + `GuildConfig` schema pipeline inside `load_from_url`, and the
remote platform client supplying guild/ban/emoji objects) enter as oracle
parameters or plain input values. -/

/-- JSON-like value held by a `BinaryJSONField`. -/
inductive JValue
  | null
  | bool (b : Bool)
  | num (n : Int)
  | str (s : List Char)
  | arr (elems : List JValue)
  | obj (fields : List (List Char × JValue))

/-- Python truthiness of a JSON-like value (`None`, `False`, `0`, empty
string, empty list and empty dict are falsy). -/
def JValue.truthy : JValue → Bool
  | .null => false
  | .bool b => b
  | .num n => n != 0
  | .str s => !s.isEmpty
  | .arr l => !l.isEmpty
  | .obj l => !l.isEmpty

/-- Truthiness of the nullable `config` column (`if not self.config`). -/
def configTruthy : Option JValue → Bool
  | none => false
  | some v => v.truthy

/-- A row of the `guilds` table. -/
structure GuildRow where
  guild_id : Int
  owner_id : Option Int
  name : Option (List Char)
  icon : Option (List Char)
  splash : Option (List Char)
  region : Option (List Char)
  last_ban_sync : Option Nat
  config : Option JValue
  config_url : List Char
  enabled : Bool
  whitelist : List JValue
  added_at : Nat

/-- A live guild object from the remote platform client. -/
structure LiveGuild where
  id : Int
  owner_id : Option Int
  name : Option (List Char)
  icon : Option (List Char)
  splash : Option (List Char)
  region : Option (List Char)

/-- A row of the `guildbans` table (composite key `user_id`, `guild_id`). -/
structure BanRow where
  user_id : Int
  guild_id : Int
  reason : Option (List Char)

/-- A live ban object (`ban.user.id` and `ban.reason`). -/
structure LiveBan where
  user_id : Int
  reason : Option (List Char)

/-- A row of the `guildemojis` table. -/
structure EmojiRow where
  emoji_id : Int
  guild_id : Int
  name : List Char
  require_colons : Bool
  managed : Bool
  roles : List Int
  deleted : Bool

/-- A live emoji object from the remote platform client. -/
structure LiveEmoji where
  id : Int
  guild_id : Int
  name : List Char
  require_colons : Bool
  managed : Bool
  roles : List Int

/-- The durable store: the three tables of `guild.py` plus the `users`
table owned by the `User` collaborator (only user ids matter here). -/
structure DB where
  guilds : List GuildRow
  bans : List BanRow
  users : List Int

/-- The parsed-and-validated configuration object (`GuildConfig` is an
external collaborator; it is modelled as a wrapper around the raw
document it was constructed from). -/
structure GuildConfigObj where
  data : Option JValue

/-- Counters for the externally visible effects of the config pipeline:
HTTP fetches performed and `GuildConfig` constructions (parses). -/
structure Eff where
  fetches : Nat
  parses : Nat

/-- `Guild.load_from_url`: one HTTP fetch of the URL (with cache-busting
parameter and 15-second timeout), YAML parse, `GuildConfig` construction
and schema validation.  The network/parser/schema pipeline is an external
collaborator, supplied as `oracle`; any of its failures surfaces as
`Except.error`.  On success it returns the `GuildConfig` and the raw
document, having performed one fetch and one parse. -/
def load_from_url (oracle : List Char → Except Unit JValue) (url : List Char) (e : Eff) :
    Except Unit (GuildConfigObj × JValue) × Eff :=
  match oracle url with
  | .error u => (.error u, { e with fetches := e.fetches + 1 })
  | .ok obj =>
      (.ok (⟨some obj⟩, obj),
        { e with fetches := e.fetches + 1, parses := e.parses + 1 })

/-- The in-memory guild record object: its durable row plus the
non-persisted `_cached_config` attribute. -/
structure GuildObj where
  row : GuildRow
  cached : Option GuildConfigObj

/-- `Guild.reload`: re-fetch the config from `config_url`, overwrite the
stored `config` with the raw document, persist, and drop the memoised
`_cached_config`.  Loader failures propagate. -/
def Guild.reload (oracle : List Char → Except Unit JValue) (g : GuildObj) (e : Eff) :
    Except Unit GuildObj × Eff :=
  match load_from_url oracle g.row.config_url e with
  | (.error u, e1) => (.error u, e1)
  | (.ok p, e1) =>
      (.ok { row := { g.row with config := some p.2 }, cached := none }, e1)

/-- `Guild.get_config`: reload first when the stored `config` is falsy;
then construct and memoise `GuildConfig(self.config)` unless
`_cached_config` is already present; return the cached object. -/
def Guild.get_config (oracle : List Char → Except Unit JValue) (g : GuildObj) (e : Eff) :
    Except Unit (GuildConfigObj × GuildObj) × Eff :=
  match (if configTruthy g.row.config then (Except.ok g, e) else Guild.reload oracle g e) with
  | (.error u, e1) => (.error u, e1)
  | (.ok g1, e1) =>
      match g1.cached with
      | some gc => (.ok (gc, g1), e1)
      | none =>
          (.ok (⟨g1.row.config⟩, { g1 with cached := some ⟨g1.row.config⟩ }),
            { e1 with parses := e1.parses + 1 })

/-- Errors raised by `Guild.create_from_url`. -/
inductive CreateErr
  | invalidConfigURL
  | valueError
  | loadFailed
  | duplicateGuild

/-- `Guild.create_from_url`: validate the URL (raising on the invalid
signal or an empty result, with no fetch and no write; a ValueError
escaping from `urlparse` propagates as well), load the config through
the loader pipeline (propagating its failures), then `create` the row,
which fails on a duplicate `guild_id` (collaborator-enforced
uniqueness).  The returned triple is the outcome, the store and the
effect counters. -/
def Guild.create_from_url (oracle : List Char → Except Unit JValue) (db : DB)
    (live : LiveGuild) (url : List Char) (now : Nat) (e : Eff) :
    Except CreateErr GuildRow × DB × Eff :=
  match validateL url with
  | Except.error _ => (.error .valueError, db, e)
  | Except.ok none => (.error .invalidConfigURL, db, e)
  | Except.ok (some u) =>
      if u.isEmpty then (.error .invalidConfigURL, db, e)
      else
        match load_from_url oracle u e with
        | (.error _, e1) => (.error .loadFailed, db, e1)
        | (.ok p, e1) =>
            if db.guilds.any (fun r => r.guild_id == live.id) then
              (.error .duplicateGuild, db, e1)
            else
              let row : GuildRow :=
                ⟨live.id, live.owner_id, live.name, live.icon, live.splash, live.region,
                  none, some p.2, u, true, [], now⟩
              (.ok row, { db with guilds := db.guilds ++ [row] }, e1)

/-- The field set of a single `Guild.update(**updates)` call issued by
`Guild.sync`: for each platform-mirror column, `some v` means the update
writes `v` to it and `none` means the column is not part of the update. -/
structure SyncUpdates where
  owner_id : Option (Option Int)
  name : Option (Option (List Char))
  icon : Option (Option (List Char))
  splash : Option (Option (List Char))
  region : Option (Option (List Char))

/-- An update statement with an empty field set (an empty Python dict). -/
def SyncUpdates.isEmpty (u : SyncUpdates) : Bool :=
  u.owner_id.isNone && u.name.isNone && u.icon.isNone &&
    u.splash.isNone && u.region.isNone

/-- `Guild.sync`: compare each of the five mirrored fields of the stored
row with the live object, collect the differing ones, and issue a single
update covering exactly them when the collection is non-empty.  The
result is the list of update statements sent to the store; the in-memory
object (including `_cached_config`) is never touched. -/
def Guild.sync (self : GuildRow) (live : LiveGuild) : List SyncUpdates :=
  let u : SyncUpdates :=
    { owner_id := if live.owner_id ≠ self.owner_id then some live.owner_id else none,
      name := if live.name ≠ self.name then some live.name else none,
      icon := if live.icon ≠ self.icon then some live.icon else none,
      splash := if live.splash ≠ self.splash then some live.splash else none,
      region := if live.region ≠ self.region then some live.region else none }
  if u.isEmpty then [] else [u]

/-- Application of one `Guild.sync` update statement to a stored row:
each column named in the field set is overwritten, all other columns are
untouched. -/
def applySync (u : SyncUpdates) (r : GuildRow) : GuildRow :=
  { r with
    owner_id := u.owner_id.getD r.owner_id,
    name := u.name.getD r.name,
    icon := u.icon.getD r.icon,
    splash := u.splash.getD r.splash,
    region := u.region.getD r.region }

/-- Agreement of a stored row with a live guild on the five mirrored
fields. -/
def mirrorAgrees (r : GuildRow) (live : LiveGuild) : Prop :=
  r.owner_id = live.owner_id ∧ r.name = live.name ∧ r.icon = live.icon ∧
    r.splash = live.splash ∧ r.region = live.region

/-- Modelled from the spec: `User.ensure` of the `User` collaborator
(`rowboat/models/user.py`, not part of this fragment) creates a minimal
user record if absent and otherwise leaves the store unchanged. -/
def User.ensure (db : DB) (uid : Int) : DB :=
  if uid ∈ db.users then db else { db with users := db.users ++ [uid] }

/-- `GuildBan.ensure`: ensure the banned user exists, then
`get_or_create` on the composite key (`guild_id`, `user_id`) with
`reason` only in the creation defaults; an existing row is returned
untouched. -/
def GuildBan.ensure (db : DB) (gid : Int) (ban : LiveBan) : BanRow × DB :=
  let db1 := User.ensure db ban.user_id
  match db1.bans.find? (fun r => r.guild_id == gid && r.user_id == ban.user_id) with
  | some r => (r, db1)
  | none =>
      let r : BanRow := ⟨ban.user_id, gid, ban.reason⟩
      (r, { db1 with bans := db1.bans ++ [r] })

/-- `Guild.sync_bans`: fetch the live ban list (`guild.get_bans()`, an
external call whose outcome is the `fetch` argument); any failure is
caught by the bare `except:` and the method returns normally with the
store untouched.  On success every ban is ensured and `last_ban_sync` is
stamped with the current time in a single update. -/
def Guild.sync_bans (db : DB) (selfGid : Int) (liveGid : Int)
    (fetch : Except Unit (List LiveBan)) (now : Nat) : Except Unit DB :=
  match fetch with
  | .error _ => .ok db
  | .ok bans =>
      let db1 := bans.foldl (fun d b => (GuildBan.ensure d liveGid b).2) db
      .ok { db1 with
        guilds := db1.guilds.map (fun r =>
          if r.guild_id == selfGid then { r with last_ban_sync := some now } else r) }

/-- `GuildEmoji.from_disco_guild_emoji`: look up the row by `emoji_id`
(creating a fresh one with default `deleted = False` when absent),
overwrite `guild_id` (Python `guild_id or emoji.guild_id`, so a falsy
argument falls back to the guild of the live emoji), `name`,
`require_colons`, `managed` and `roles` from the live object, persist
with `force_insert` exactly when the row is new, and return the row. -/
def GuildEmoji.from_disco_guild_emoji (tbl : List EmojiRow) (emoji : LiveEmoji)
    (guild_id : Option Int) : EmojiRow × List EmojiRow :=
  let found := tbl.find? (fun r => r.emoji_id == emoji.id)
  let base_deleted := match found with
    | some r => r.deleted
    | none => false
  let gid := match guild_id with
    | some v => if v = 0 then emoji.guild_id else v
    | none => emoji.guild_id
  let ge : EmojiRow :=
    ⟨emoji.id, gid, emoji.name, emoji.require_colons, emoji.managed, emoji.roles,
      base_deleted⟩
  let tbl1 := match found with
    | some _ => tbl.map (fun r => if r.emoji_id == emoji.id then ge else r)
    | none => tbl ++ [ge]
  (ge, tbl1)

/-! ### Lemmas and claim theorems for the ORM-backed operations -/

lemma users_ensure_mem (db : DB) (uid : Int) : uid ∈ (User.ensure db uid).users := by
  unfold User.ensure
  by_cases h : uid ∈ db.users
  · rwa [if_pos h]
  · rw [if_neg h]
    simp

lemma ensure_mem_of {db : DB} {uid : Int} (h : uid ∈ db.users) :
    User.ensure db uid = db := by
  unfold User.ensure
  rw [if_pos h]

lemma guildban_ensure_unfold (db : DB) (gid uid : Int) (rs : Option (List Char)) :
    GuildBan.ensure db gid ⟨uid, rs⟩ =
      match (User.ensure db uid).bans.find?
          (fun r => r.guild_id == gid && r.user_id == uid) with
      | some r => (r, User.ensure db uid)
      | none =>
          (⟨uid, gid, rs⟩,
            { User.ensure db uid with
              bans := (User.ensure db uid).bans ++ [⟨uid, gid, rs⟩] }) := rfl

/-- Claim C4: when the live-ban fetch fails, `sync_bans` swallows the
failure, returns normally, and the store — `last_ban_sync` and the ban
table included — is exactly what it was before the call. -/
theorem c4_theorem (db : DB) (selfGid liveGid : Int) (now : Nat) :
    Guild.sync_bans db selfGid liveGid (Except.error ()) now = Except.ok db := rfl

/-- Claim C5: when the URL validator rejects the URL, `create_from_url`
fails with the invalid-configuration-URL error, performs no fetch (the
effect counters are unchanged), and writes nothing to the store. -/
theorem c5_theorem (oracle : List Char → Except Unit JValue) (db : DB) (live : LiveGuild)
    (url : List Char) (now : Nat) (e : Eff) (hurl : validateL url = Except.ok none) :
    Guild.create_from_url oracle db live url now e =
      (Except.error CreateErr.invalidConfigURL, db, e) := by
  unfold Guild.create_from_url
  rw [hurl]

/-- Claim C5, witness: the theorem evaluated on the rejected URL
`https://evil.com/x` with an oracle that would answer any fetch. -/
theorem c5_witness :
    Guild.create_from_url (fun _ => Except.ok JValue.null) ⟨[], [], []⟩
      ⟨1, none, none, none, none, none⟩ (("https://evil.com/x").toList) 0 ⟨0, 0⟩ =
      (Except.error CreateErr.invalidConfigURL, ⟨[], [], []⟩, ⟨0, 0⟩) :=
  c5_theorem _ _ _ _ _ _ (by decide)

/-- Claim C6: `sync` issues zero update statements exactly when all five
mirrored fields already match the live object; otherwise it issues
exactly one update whose field set is exactly the differing mirrored
fields, and applying that update makes the mirrored fields match while
leaving every other column of the row unchanged. -/
theorem c6_theorem (self : GuildRow) (live : LiveGuild) :
    (Guild.sync self live).length ≤ 1 ∧
    (Guild.sync self live = [] ↔ mirrorAgrees self live) ∧
    ∀ u, Guild.sync self live = [u] →
      (u.owner_id = if live.owner_id ≠ self.owner_id then some live.owner_id else none) ∧
      (u.name = if live.name ≠ self.name then some live.name else none) ∧
      (u.icon = if live.icon ≠ self.icon then some live.icon else none) ∧
      (u.splash = if live.splash ≠ self.splash then some live.splash else none) ∧
      (u.region = if live.region ≠ self.region then some live.region else none) ∧
      mirrorAgrees (applySync u self) live ∧
      (applySync u self).guild_id = self.guild_id ∧
      (applySync u self).last_ban_sync = self.last_ban_sync ∧
      (applySync u self).config = self.config ∧
      (applySync u self).config_url = self.config_url ∧
      (applySync u self).enabled = self.enabled ∧
      (applySync u self).whitelist = self.whitelist ∧
      (applySync u self).added_at = self.added_at := by
  refine ⟨?_, ?_, ?_⟩
  · unfold Guild.sync
    by_cases hE : (SyncUpdates.isEmpty
        { owner_id := if live.owner_id ≠ self.owner_id then some live.owner_id else none,
          name := if live.name ≠ self.name then some live.name else none,
          icon := if live.icon ≠ self.icon then some live.icon else none,
          splash := if live.splash ≠ self.splash then some live.splash else none,
          region := if live.region ≠ self.region then some live.region else none }) = true
    · rw [if_pos hE]; simp
    · rw [if_neg hE]; simp
  · unfold Guild.sync
    constructor
    · intro hnil
      by_cases hE : (SyncUpdates.isEmpty
          { owner_id := if live.owner_id ≠ self.owner_id then some live.owner_id else none,
            name := if live.name ≠ self.name then some live.name else none,
            icon := if live.icon ≠ self.icon then some live.icon else none,
            splash := if live.splash ≠ self.splash then some live.splash else none,
            region := if live.region ≠ self.region then some live.region else none }) = true
      · simp only [SyncUpdates.isEmpty, Bool.and_eq_true, Option.isNone_iff_eq_none,
          ite_eq_right_iff, reduceCtorEq] at hE
        obtain ⟨⟨⟨⟨h1, h2⟩, h3⟩, h4⟩, h5⟩ := hE
        exact ⟨(not_not.mp fun hne => h1 hne).symm, (not_not.mp fun hne => h2 hne).symm,
          (not_not.mp fun hne => h3 hne).symm, (not_not.mp fun hne => h4 hne).symm,
          (not_not.mp fun hne => h5 hne).symm⟩
      · rw [if_neg hE] at hnil
        exact absurd hnil (by simp)
    · rintro ⟨h1, h2, h3, h4, h5⟩
      have hE : (SyncUpdates.isEmpty
          { owner_id := if live.owner_id ≠ self.owner_id then some live.owner_id else none,
            name := if live.name ≠ self.name then some live.name else none,
            icon := if live.icon ≠ self.icon then some live.icon else none,
            splash := if live.splash ≠ self.splash then some live.splash else none,
            region := if live.region ≠ self.region then some live.region else none }) = true := by
        simp [SyncUpdates.isEmpty, h1.symm, h2.symm, h3.symm, h4.symm, h5.symm]
      rw [if_pos hE]
  · intro u hu
    unfold Guild.sync at hu
    by_cases hE : (SyncUpdates.isEmpty
        { owner_id := if live.owner_id ≠ self.owner_id then some live.owner_id else none,
          name := if live.name ≠ self.name then some live.name else none,
          icon := if live.icon ≠ self.icon then some live.icon else none,
          splash := if live.splash ≠ self.splash then some live.splash else none,
          region := if live.region ≠ self.region then some live.region else none }) = true
    · rw [if_pos hE] at hu
      exact absurd hu (by simp)
    · rw [if_neg hE] at hu
      have hu2 := (List.cons.injEq _ _ _ _).mp hu.symm
      obtain ⟨rfl, -⟩ := hu2
      refine ⟨rfl, rfl, rfl, rfl, rfl, ?_, rfl, rfl, rfl, rfl, rfl, rfl, rfl⟩
      refine ⟨?_, ?_, ?_, ?_, ?_⟩
      · by_cases hc : live.owner_id ≠ self.owner_id
      <;> simp_all [applySync]
      · by_cases hc : live.name ≠ self.name <;> simp_all [applySync]
      · by_cases hc : live.icon ≠ self.icon <;> simp_all [applySync]
      · by_cases hc : live.splash ≠ self.splash <;> simp_all [applySync]
      · by_cases hc : live.region ≠ self.region <;> simp_all [applySync]

/-- Concrete row for the C6 witness. -/
def c6row : GuildRow :=
  ⟨1, some 2, some (("n").toList), none, none, some (("us").toList),
    none, none, ("u".toList), true, [], 0⟩

/-- Live guild agreeing with `c6row` on every mirrored field. -/
def c6liveSame : LiveGuild := ⟨1, some 2, some (("n").toList), none, none, some (("us").toList)⟩

/-- Live guild differing from `c6row` in `owner_id` and `region`. -/
def c6liveDiff : LiveGuild := ⟨1, some 3, some (("n").toList), none, none, some (("eu").toList)⟩

/-- The single update `sync` issues for `c6row` against `c6liveDiff`. -/
def c6upd : SyncUpdates := ⟨some (some 3), none, none, none, some (some (("eu").toList))⟩

/-- Claim C6, witness: zero writes when nothing differs, and the issued
update for a two-field difference makes the row agree with the live
object. -/
theorem c6_witness :
    Guild.sync c6row c6liveSame = [] ∧ mirrorAgrees (applySync c6upd c6row) c6liveDiff :=
  ⟨(c6_theorem c6row c6liveSame).2.1.mpr ⟨rfl, rfl, rfl, rfl, rfl⟩,
   ((c6_theorem c6row c6liveDiff).2.2 c6upd rfl).2.2.2.2.2.1⟩

/-- Claim C7, amended: for a record whose stored `config` is non-empty
(truthy), `get_config` performs no fetch and at most one parse, and a
second call with no intervening `reload` returns exactly the memoised
configuration object, record state and effect counters of the first
call — in particular it neither fetches nor parses again. -/
theorem c7_theorem (oracle : List Char → Except Unit JValue) (g : GuildObj) (e : Eff)
    (h : configTruthy g.row.config = true) :
    (Guild.get_config oracle g e).1.isOk = true ∧
    ((Guild.get_config oracle g e).2).fetches = e.fetches ∧
    ((Guild.get_config oracle g e).2).parses ≤ e.parses + 1 ∧
    ∀ gc g1 e1, Guild.get_config oracle g e = (Except.ok (gc, g1), e1) →
      g1.cached = some gc ∧
      Guild.get_config oracle g1 e1 = (Except.ok (gc, g1), e1) := by
  have hfirst : Guild.get_config oracle g e =
      match g.cached with
      | some gc => (Except.ok (gc, g), e)
      | none =>
          (Except.ok (⟨g.row.config⟩, { g with cached := some ⟨g.row.config⟩ }),
            { e with parses := e.parses + 1 }) := by
    unfold Guild.get_config
    rw [h, if_pos rfl]
  cases hc : g.cached with
  | some gc0 =>
    rw [hfirst, hc]
    refine ⟨rfl, rfl, Nat.le_succ _, ?_⟩
    rintro gc g1 e1 heq
    simp only [Prod.mk.injEq, Except.ok.injEq] at heq
    obtain ⟨⟨rfl, rfl⟩, rfl⟩ := heq
    exact ⟨hc, by rw [hfirst, hc]⟩
  | none =>
    rw [hfirst, hc]
    refine ⟨rfl, rfl, Nat.le_refl _, ?_⟩
    rintro gc g1 e1 heq
    simp only [Prod.mk.injEq, Except.ok.injEq] at heq
    obtain ⟨⟨rfl, rfl⟩, rfl⟩ := heq
    refine ⟨rfl, ?_⟩
    have h2 : configTruthy
        ({ g with cached := some (⟨g.row.config⟩ : GuildConfigObj) } : GuildObj).row.config =
        true := h
    unfold Guild.get_config
    rw [h2, if_pos rfl]

/-- Loader oracle for the C7 scenarios: the remote document parses to
YAML `null`. -/
def c7oracle : List Char → Except Unit JValue := fun _ => Except.ok JValue.null

/-- A guild record whose stored `config` is empty (`None`). -/
def c7empty : GuildObj :=
  ⟨⟨1, none, none, none, none, none, none, none, ("u".toList), true, [], 0⟩, none⟩

/-- First `get_config` call on the empty-config record. -/
def c7first : Except Unit (GuildConfigObj × GuildObj) × Eff :=
  Guild.get_config c7oracle c7empty ⟨0, 0⟩

/-- Second `get_config` call, on the record and counters produced by the
first call. -/
def c7second : Except Unit (GuildConfigObj × GuildObj) × Eff :=
  match c7first with
  | (Except.ok p, e1) => Guild.get_config c7oracle p.2 e1
  | (Except.error u, e1) => (Except.error u, e1)

/-- Claim C7, counterexample: when the stored config is empty and the
remote document is falsy (YAML `null`), the second consecutive
`get_config` call performs another fetch and two further parses, so the
universally quantified claim that the second call parses at most once and never fetches
fails. -/
theorem c7_counterexample :
    c7second.2.fetches = c7first.2.fetches + 1 ∧
    c7second.2.parses = c7first.2.parses + 2 := ⟨rfl, rfl⟩

/-- A guild record with a truthy stored config. -/
def c7truthy : GuildObj :=
  ⟨⟨1, none, none, none, none, none, none, some (JValue.num 1), ("u".toList), true, [], 0⟩,
    none⟩

/-- An oracle that fails every fetch (so any fetch would surface). -/
def c7bad : List Char → Except Unit JValue := fun _ => Except.error ()

/-- Claim C7, witness: the amended theorem evaluated on a record with a
truthy stored config, under an oracle that fails every fetch. -/
theorem c7_witness :
    ((Guild.get_config c7bad c7truthy ⟨0, 0⟩).2).fetches = 0 ∧
    Guild.get_config c7bad
        (⟨c7truthy.row, some ⟨some (JValue.num 1)⟩⟩ : GuildObj) ⟨0, 1⟩ =
      (Except.ok (⟨some (JValue.num 1)⟩,
        (⟨c7truthy.row, some ⟨some (JValue.num 1)⟩⟩ : GuildObj)), ⟨0, 1⟩) :=
  ⟨(c7_theorem c7bad c7truthy ⟨0, 0⟩ (by rfl)).2.1,
   ((c7_theorem c7bad c7truthy ⟨0, 0⟩ (by rfl)).2.2.2 ⟨some (JValue.num 1)⟩
     (⟨c7truthy.row, some ⟨some (JValue.num 1)⟩⟩ : GuildObj) ⟨0, 1⟩ (by rfl)).2⟩

/-- Claim C8: calling the ban cache operation `ensure` a second time for the same
(guild, user) pair with a different reason returns the same row with the
reason of the first call retained and leaves the store exactly as the first
call left it — the row is created at most once and never updated. -/
theorem c8_theorem (db : DB) (gid uid : Int) (r1 r2 : Option (List Char)) :
    GuildBan.ensure ((GuildBan.ensure db gid ⟨uid, r1⟩).2) gid ⟨uid, r2⟩ =
      GuildBan.ensure db gid ⟨uid, r1⟩ := by
  rw [guildban_ensure_unfold db gid uid r1]
  cases hfind : (User.ensure db uid).bans.find?
      (fun r => r.guild_id == gid && r.user_id == uid) with
  | some r =>
    rw [guildban_ensure_unfold (User.ensure db uid) gid uid r2,
      ensure_mem_of (users_ensure_mem db uid), hfind]
  | none =>
    rw [guildban_ensure_unfold _ gid uid r2]
    have hm : uid ∈ ({ User.ensure db uid with
        bans := (User.ensure db uid).bans ++ [⟨uid, gid, r1⟩] } : DB).users :=
      users_ensure_mem db uid
    rw [ensure_mem_of hm]
    have hbans : ({ User.ensure db uid with
        bans := (User.ensure db uid).bans ++ [⟨uid, gid, r1⟩] } : DB).bans =
        (User.ensure db uid).bans ++ [⟨uid, gid, r1⟩] := rfl
    rw [hbans, List.find?_append, hfind]
    simp [List.find?]

/-- Claim C10, counterexample: with a truthy `guild_id` argument the row
is persisted with the guild id from the argument, not from the live
emoji, so the upsert does not overwrite `guild_id` from the live emoji
in every call. -/
theorem c10_counterexample :
    (GuildEmoji.from_disco_guild_emoji []
        (⟨1, 7, [], true, false, []⟩ : LiveEmoji) (some 5)).1.guild_id = 5 ∧
    (⟨1, 7, [], true, false, []⟩ : LiveEmoji).guild_id = 7 := by decide

/-- Claim C10, amended: the emoji upsert returns a row whose `deleted`
flag is the flag of the stored row when the row existed and `False` (the
column default) when it was created; `name`, `require_colons`, `managed`
and `roles` are overwritten from the live emoji, while `guild_id` is
taken from the `guild_id` argument when that argument is truthy and from
the live emoji otherwise; the persisted row is returned. -/
theorem c10_theorem (tbl : List EmojiRow) (emoji : LiveEmoji) (guild_id : Option Int) :
    (GuildEmoji.from_disco_guild_emoji tbl emoji guild_id).1.deleted =
      (match tbl.find? (fun r => r.emoji_id == emoji.id) with
       | some r => r.deleted
       | none => false) ∧
    (GuildEmoji.from_disco_guild_emoji tbl emoji guild_id).1.guild_id =
      (match guild_id with
       | some v => if v = 0 then emoji.guild_id else v
       | none => emoji.guild_id) ∧
    (GuildEmoji.from_disco_guild_emoji tbl emoji guild_id).1.emoji_id = emoji.id ∧
    (GuildEmoji.from_disco_guild_emoji tbl emoji guild_id).1.name = emoji.name ∧
    (GuildEmoji.from_disco_guild_emoji tbl emoji guild_id).1.require_colons =
      emoji.require_colons ∧
    (GuildEmoji.from_disco_guild_emoji tbl emoji guild_id).1.managed = emoji.managed ∧
    (GuildEmoji.from_disco_guild_emoji tbl emoji guild_id).1.roles = emoji.roles ∧
    (GuildEmoji.from_disco_guild_emoji tbl emoji guild_id).1 ∈
      (GuildEmoji.from_disco_guild_emoji tbl emoji guild_id).2 := by
  unfold GuildEmoji.from_disco_guild_emoji
  cases hfind : tbl.find? (fun r => r.emoji_id == emoji.id) with
  | some r =>
    have hmem : r ∈ tbl := List.mem_of_find?_eq_some hfind
    have hpred : (r.emoji_id == emoji.id) = true := by
      have h := List.find?_some hfind
      simpa using h
    simp only [hfind]
    refine ⟨trivial, trivial, trivial, trivial, trivial, trivial, trivial, ?_⟩
    refine List.mem_map.mpr ⟨r, hmem, ?_⟩
    simp [hpred]
  | none =>
    simp only [hfind]
    exact ⟨trivial, trivial, trivial, trivial, trivial, trivial, trivial, by simp⟩

end Rowboat
